import Mathlib

/-!
# Verification of the nsf-neurips2025 media staging pipeline

A shallow embedding of the shell scripts that build and stage the media
assets of the project page:

* `tools/ffmpeg/encode_webm.sh` (called `prepare_webm.sh` in its header) —
  transcodes Manim MP4 renders to WebM,
* `tools/ffmpeg/posters.sh` — extracts JPEG poster frames,
* `tools/cli/stage_assets.sh` — relocates artifacts into `site/assets`,
* `tools/cli/build_media.sh` — the orchestrator,
* `tools/manim/render_scenes.sh` — the renderer invocation.

The filesystem is modelled as a finite map from paths (lists of path
components) to file data (content plus modification time) together with a
set of existing directories.  External tools (ffmpeg, manim) are modelled
as deterministic content transformers; their invocations are recorded in a
trace so that "the encoder is invoked for the file" is a statement about
the trace.
-/

namespace NSF

/-- A filesystem path, as its list of components (no leading slash). -/
abbrev Path := List String

/-- Data stored for a regular file: its byte content and its modification
time.  Time is an abstract `Nat` tick. -/
structure FileData where
  content : String
  mtime : Nat
deriving DecidableEq, Repr

/-- Association-list lookup of a file by path. -/
def lookupFile : List (Path × FileData) → Path → Option FileData
  | [], _ => none
  | e :: rest, p => if e.1 = p then some e.2 else lookupFile rest p

/-- Remove every entry with the given path. -/
def removeKey : List (Path × FileData) → Path → List (Path × FileData)
  | [], _ => []
  | e :: rest, p => if e.1 = p then removeKey rest p else e :: removeKey rest p

/-- The filesystem: regular files and existing directories. -/
structure FS where
  files : List (Path × FileData)
  dirs : List Path
deriving DecidableEq, Repr

def FS.getFile (fs : FS) (p : Path) : Option FileData :=
  lookupFile fs.files p

/-- `[[ -f p ]]`. -/
def FS.fileExists (fs : FS) (p : Path) : Bool :=
  (fs.getFile p).isSome

/-- `[[ -d p ]]`. -/
def FS.dirExists (fs : FS) (p : Path) : Bool :=
  fs.dirs.contains p

/-- Create or overwrite a file. -/
def FS.setFile (fs : FS) (p : Path) (d : FileData) : FS :=
  { fs with files := (p, d) :: removeKey fs.files p }

/-- Delete a file. -/
def FS.removeFile (fs : FS) (p : Path) : FS :=
  { fs with files := removeKey fs.files p }

/-- `mv -f src dest`: the destination receives the source's data
(modification time preserved by rename) and the source disappears. -/
def FS.rename (fs : FS) (src dest : Path) : FS :=
  match fs.getFile src with
  | some d => (fs.removeFile src).setFile dest d
  | none => fs

/-- All ancestor prefixes of a path, the path itself included. -/
def pathPrefixes (p : Path) : List Path :=
  (List.range (p.length + 1)).map (fun i => p.take i)

/-- `mkdir -p p`: add `p` and all its ancestors to the directory set. -/
def FS.mkdirp (fs : FS) (p : Path) : FS :=
  { fs with dirs := fs.dirs ++ (pathPrefixes p).filter (fun d => !fs.dirs.contains d) }

/-- Bash `[[ a -nt b ]]`: true when `a` has a strictly newer modification
time than `b`, or `a` exists and `b` does not. -/
def newerB (fs : FS) (a b : Path) : Bool :=
  match fs.getFile a, fs.getFile b with
  | some fa, some fb => decide (fb.mtime < fa.mtime)
  | some _, none => true
  | none, _ => false

/-! ## Basic filesystem lemmas -/

theorem lookupFile_removeKey_self (l : List (Path × FileData)) (p : Path) :
    lookupFile (removeKey l p) p = none := by
  induction l with
  | nil => rfl
  | cons e rest ih =>
      by_cases h : e.1 = p
      · simpa [removeKey, h] using ih
      · simp [removeKey, h, lookupFile, ih]

theorem lookupFile_removeKey_ne (l : List (Path × FileData)) (p q : Path) (h : q ≠ p) :
    lookupFile (removeKey l p) q = lookupFile l q := by
  induction l with
  | nil => rfl
  | cons e rest ih =>
      by_cases he : e.1 = p
      · have hne : e.1 ≠ q := fun hq => h (hq ▸ he ▸ rfl)
        rw [removeKey, if_pos he, ih, lookupFile, if_neg hne]
      · rw [removeKey, if_neg he, lookupFile, lookupFile]
        by_cases hq : e.1 = q
        · rw [if_pos hq, if_pos hq]
        · rw [if_neg hq, if_neg hq, ih]

theorem getFile_setFile_self (fs : FS) (p : Path) (d : FileData) :
    (fs.setFile p d).getFile p = some d := by
  simp [FS.setFile, FS.getFile, lookupFile]

theorem getFile_setFile_ne (fs : FS) (p q : Path) (d : FileData) (h : q ≠ p) :
    (fs.setFile p d).getFile q = fs.getFile q := by
  have hne : p ≠ q := fun hq => h hq.symm
  show lookupFile ((p, d) :: removeKey fs.files p) q = _
  rw [lookupFile, if_neg hne, lookupFile_removeKey_ne fs.files p q h]
  rfl

theorem getFile_removeFile_self (fs : FS) (p : Path) :
    (fs.removeFile p).getFile p = none := by
  simp [FS.removeFile, FS.getFile, lookupFile_removeKey_self]

theorem getFile_removeFile_ne (fs : FS) (p q : Path) (h : q ≠ p) :
    (fs.removeFile p).getFile q = fs.getFile q := by
  simp [FS.removeFile, FS.getFile, lookupFile_removeKey_ne fs.files p q h]

theorem getFile_mkdirp (fs : FS) (p q : Path) :
    (fs.mkdirp p).getFile q = fs.getFile q := rfl

theorem dirs_setFile (fs : FS) (p : Path) (d : FileData) :
    (fs.setFile p d).dirs = fs.dirs := rfl

theorem dirs_removeFile (fs : FS) (p : Path) :
    (fs.removeFile p).dirs = fs.dirs := rfl

theorem dirs_rename (fs : FS) (src dest : Path) :
    (fs.rename src dest).dirs = fs.dirs := by
  unfold FS.rename
  cases fs.getFile src <;> rfl

theorem dirs_mkdirp_subset (fs : FS) (p : Path) (d : Path) (h : d ∈ fs.dirs) :
    d ∈ (fs.mkdirp p).dirs := by
  simp [FS.mkdirp]
  exact Or.inl h

theorem getFile_rename_src (fs : FS) (src dest : Path) (d : FileData)
    (hne : src ≠ dest) (hs : fs.getFile src = some d) :
    (fs.rename src dest).getFile src = none := by
  unfold FS.rename
  rw [hs]
  rw [getFile_setFile_ne _ _ _ _ hne]
  exact getFile_removeFile_self fs src

theorem getFile_rename_dest (fs : FS) (src dest : Path) (d : FileData)
    (hs : fs.getFile src = some d) :
    (fs.rename src dest).getFile dest = some d := by
  unfold FS.rename
  rw [hs]
  exact getFile_setFile_self _ _ _

theorem getFile_rename_other (fs : FS) (src dest q : Path)
    (h1 : q ≠ src) (h2 : q ≠ dest) :
    (fs.rename src dest).getFile q = fs.getFile q := by
  unfold FS.rename
  cases hs : fs.getFile src with
  | none => rfl
  | some d =>
      rw [getFile_setFile_ne _ _ _ _ h2, getFile_removeFile_ne _ _ _ h1]

/-! ## Path helpers shared by the scripts -/

/-- The characters of the printed path: components joined with `/`. -/
def pathKeyChars : Path → List Char
  | [] => []
  | [s] => s.data
  | s :: rest => s.data ++ '/' :: pathKeyChars rest

/-- Join components with `/`, the string on which `find ... | sort` sorts. -/
def pathKey (p : Path) : String :=
  String.mk (pathKeyChars p)

/-- Byte-wise lexicographic comparison, as `sort` in the C locale. -/
def strLeB : List Char → List Char → Bool
  | [], _ => true
  | _ :: _, [] => false
  | a :: as, b :: bs =>
      if a.toNat < b.toNat then true
      else if a.toNat = b.toNat then strLeB as bs
      else false

/-- Lexicographic order on printed paths. -/
def pathLe (a b : Path) : Prop :=
  strLeB (pathKeyChars a) (pathKeyChars b) = true

instance : DecidableRel pathLe := fun a b =>
  inferInstanceAs (Decidable (strLeB (pathKeyChars a) (pathKeyChars b) = true))

/-- `find ... -print | sort`. -/
def sortPaths (l : List Path) : List Path :=
  List.insertionSort pathLe l

/-- The file name, i.e. the last path component (`basename`). -/
def lastName (p : Path) : String :=
  p.getLastD ""

/-- Does `s` end with `suf`?  (Character-list based, so that concrete
instances evaluate inside the kernel.) -/
def strEndsWith (s suf : String) : Bool :=
  suf.data.isSuffixOf s.data

/-- Drop the last `n` characters of `s`. -/
def strDropRight (s : String) (n : Nat) : String :=
  String.mk (s.data.take (s.data.length - n))

/-- Bash `${s%suf}` with a literal pattern: remove the suffix if present. -/
def stripSuffix (s suf : String) : String :=
  if strEndsWith s suf then strDropRight s suf.data.length else s

/-- Does the file name match the glob `*ext` (e.g. `*.mp4`)? -/
def nameHasExt (p : Path) (ext : String) : Bool :=
  strEndsWith (lastName p) ext

/-- `! -path '*/partial_movie_files/*'`: the path has an intermediate
directory component named `partial_movie_files`. -/
def inPartialDir (p : Path) : Bool :=
  p.dropLast.contains "partial_movie_files"

/-- `find root -type f \( -name '*e₁' -o ... \) ! -path '*/partial_movie_files/*' | sort`:
all files below `root` with one of the extensions, intermediate files
excluded, in sorted order. -/
def findFiles (fs : FS) (root : Path) (exts : List String) : List Path :=
  sortPaths ((fs.files.map (fun e => e.1)).filter (fun p =>
    root.isPrefixOf p && exts.any (fun e => nameHasExt p e) && !inPartialDir p))

/-! ## Directory constants (relative to the project root) -/

def MEDIA_ROOT : Path := ["build", "manim"]
def POSTER_ROOT : Path := ["build", "manim", "posters"]
def BUILD_ROOT : Path := ["build", "manim"]
def SOURCE_VIDEO_ROOT : Path := ["build", "manim"]
def DEST_VIDEO_ROOT : Path := ["site", "assets", "videos"]
def SOURCE_POSTER_ROOT : Path := ["build", "manim", "posters"]
def DEST_POSTER_ROOT : Path := ["site", "assets", "posters"]
def SOURCE_FIGURE_ROOT : Path := ["assets", "figures"]
def DEST_FIGURE_ROOT : Path := ["site", "assets", "images"]

/-- The ordered candidate layouts probed for a theme
(`encode_webm.sh` / `posters.sh` `find_theme_root`,
`stage_assets.sh` `find_theme_video_root`: all three lists are textually
identical in the source). -/
def themeCandidates (theme : String) : List Path :=
  [ MEDIA_ROOT ++ [theme, "videos", "sde_animation"],
    MEDIA_ROOT ++ [theme, "videos", "scenes"],
    MEDIA_ROOT ++ ["videos", theme, "videos", "sde_animation"],
    MEDIA_ROOT ++ ["videos", theme, "videos", "scenes"] ]

/-- `find_theme_root` of `encode_webm.sh` and `posters.sh`: first candidate
directory that exists, else failure. -/
def find_theme_root (fs : FS) (theme : String) : Option Path :=
  (themeCandidates theme).find? (fun c => fs.dirExists c)

/-- `find_theme_video_root` of `stage_assets.sh` (same candidate list). -/
def find_theme_video_root (fs : FS) (theme : String) : Option Path :=
  (themeCandidates theme).find? (fun c => fs.dirExists c)

/-! ## Common per-step state

Each transcoding step carries the filesystem, a clock, the trace of
external-encoder invocations (by input path), and the lines it printed. -/

structure StepState where
  fs : FS
  time : Nat
  calls : List Path
  log : List String
deriving Repr

/-- The shared skip test of `encode_webm.sh` line 106 and `posters.sh`
line 115: `[[ "${OVERWRITE}" != "true" && -f out && out -nt inp ]]`. -/
def skipUpToDate (force : Bool) (fs : FS) (inp out : Path) : Bool :=
  !force && fs.fileExists out && newerB fs out inp

/-- Content of a file, empty if absent (inputs are always present). -/
def contentOf (fs : FS) (p : Path) : String :=
  ((fs.getFile p).map (fun d => d.content)).getD ""

/-! ## `encode_webm.sh` -/

/-- `output_path="${input_path%.mp4}.webm"`. -/
def webmOutput (input_path : Path) : Path :=
  input_path.dropLast ++ [stripSuffix (lastName input_path) ".mp4" ++ ".webm"]

/-- The external encoder as a black-box content transformer for the WebM
profile (`-c:v libvpx-vp9 -b:v 0 -crf CRF -pix_fmt PIX_FMT -auto-alt-ref 0 -an`). -/
def webmContent (crf pix_fmt : String) (src : String) : String :=
  "webm[crf=" ++ crf ++ ",pix_fmt=" ++ pix_fmt ++ "](" ++ src ++ ")"

/-- Body of the per-file loop of `process_theme` in `encode_webm.sh`:
skip when up to date, otherwise invoke ffmpeg writing directly to the
sibling output path. -/
def encodeFile (crf pix_fmt : String) (force : Bool) (theme : String)
    (st : StepState) (input_path : Path) : StepState :=
  let output_path := webmOutput input_path
  if skipUpToDate force st.fs input_path output_path then
    { st with log := st.log ++ ["[" ++ theme ++ "] " ++ lastName input_path ++ ": WebM up to date."] }
  else
    { fs := st.fs.setFile output_path
        ⟨webmContent crf pix_fmt (contentOf st.fs input_path), st.time⟩,
      time := st.time + 1,
      calls := st.calls ++ [input_path],
      log := st.log ++ ["[" ++ theme ++ "] " ++ lastName input_path ++ ": encoding WebM."] }

/-- The skip diagnostic for an unresolvable theme root. -/
def skipRootMsg (theme : String) : String :=
  "Skip " ++ theme ++ ": render directory not found under build/manim."

/-- `process_theme` of `encode_webm.sh`: resolve the theme root (skip with
a diagnostic if none), list the MP4 inputs once, process each, and log a
diagnostic if the root had no inputs. -/
def process_theme (crf pix_fmt : String) (force : Bool)
    (st : StepState) (theme : String) : StepState :=
  match find_theme_root st.fs theme with
  | none => { st with log := st.log ++ [skipRootMsg theme] }
  | some source_root =>
      let inputs := findFiles st.fs source_root [".mp4"]
      let st' := inputs.foldl (encodeFile crf pix_fmt force theme) st
      if inputs.isEmpty then
        { st' with log := st'.log ++ ["Skip " ++ theme ++ ": no MP4 files found."] }
      else st'

/-- The theme loop of `encode_webm.sh`. -/
def encode_run (crf pix_fmt : String) (force : Bool)
    (st : StepState) (themes : List String) : StepState :=
  themes.foldl (process_theme crf pix_fmt force) st

/-- Top level of `encode_webm.sh` after argument parsing: the ffmpeg
availability check, theme defaulting, and the theme loop.  Returns the
final state and the exit code. -/
def encode_main (ffmpegAvailable : Bool) (crf pix_fmt : String) (force : Bool)
    (argThemes : List String) (fs : FS) (t : Nat) : StepState × Nat :=
  if !ffmpegAvailable then
    ({ fs := fs, time := t, calls := [], log := ["Error: ffmpeg not found in PATH."] }, 1)
  else
    let themes := if argThemes.isEmpty then ["dark", "light"] else argThemes
    (encode_run crf pix_fmt force { fs := fs, time := t, calls := [], log := [] } themes, 0)

/-! ## `posters.sh` -/

/-- `output_path="${POSTER_ROOT}/${stem}-${theme}.jpg"` where
`stem="${filename%.mp4}"`. -/
def posterOut (input_path : Path) (theme : String) : Path :=
  POSTER_ROOT ++ [stripSuffix (lastName input_path) ".mp4" ++ "-" ++ theme ++ ".jpg"]

/-- `tmp_output="${output_path}.tmp"`. -/
def posterTmp (input_path : Path) (theme : String) : Path :=
  POSTER_ROOT ++ [stripSuffix (lastName input_path) ".mp4" ++ "-" ++ theme ++ ".jpg" ++ ".tmp"]

/-- The external encoder as a black-box content transformer for the poster
profile (`-frames:v 1 -q:v QUALITY -f image2 -update 1`). -/
def posterContent (quality : String) (src : String) : String :=
  "jpeg[q=" ++ quality ++ "](" ++ src ++ ")"

/-- Body of the per-file loop of `generate_for_theme` in `posters.sh`:
skip when up to date, otherwise have ffmpeg write the frame to the
temporary path and rename it over the destination. -/
def posterFile (quality : String) (force : Bool) (theme : String)
    (st : StepState) (input_path : Path) : StepState :=
  let output_path := posterOut input_path theme
  let tmp_output := posterTmp input_path theme
  if skipUpToDate force st.fs input_path output_path then
    { st with log := st.log ++ ["[" ++ theme ++ "] up to date."] }
  else
    let written := st.fs.setFile tmp_output
      ⟨posterContent quality (contentOf st.fs input_path), st.time⟩
    { fs := written.rename tmp_output output_path,
      time := st.time + 1,
      calls := st.calls ++ [input_path],
      log := st.log ++ ["[" ++ theme ++ "] extracting poster."] }

/-- `generate_for_theme` of `posters.sh`. -/
def generate_for_theme (quality : String) (force : Bool)
    (st : StepState) (theme : String) : StepState :=
  match find_theme_root st.fs theme with
  | none => { st with log := st.log ++ [skipRootMsg theme] }
  | some source_root =>
      let inputs := findFiles st.fs source_root [".mp4"]
      let st' := inputs.foldl (posterFile quality force theme) st
      if inputs.isEmpty then
        { st' with log := st'.log ++ ["Skip " ++ theme ++ ": no MP4 files found."] }
      else st'

/-- The theme loop of `posters.sh`. -/
def posters_run (quality : String) (force : Bool)
    (st : StepState) (themes : List String) : StepState :=
  themes.foldl (generate_for_theme quality force) st

/-- Top level of `posters.sh` after argument parsing: ffmpeg check, then
`mkdir -p POSTER_ROOT`, theme defaulting and the theme loop. -/
def posters_main (ffmpegAvailable : Bool) (quality : String) (force : Bool)
    (argThemes : List String) (fs : FS) (t : Nat) : StepState × Nat :=
  if !ffmpegAvailable then
    ({ fs := fs, time := t, calls := [], log := ["Error: ffmpeg not found in PATH."] }, 1)
  else
    let themes := if argThemes.isEmpty then ["dark", "light"] else argThemes
    (posters_run quality force
      { fs := fs.mkdirp POSTER_ROOT, time := t, calls := [], log := [] } themes, 0)

/-- The successive filesystem snapshots while the poster step processes a
single input in the generate branch: the initial state, the states in
which ffmpeg has written each prefix of the frame data to the temporary
path, and the state after `mv -f tmp output`. -/
def posterWriteStates (quality : String) (t : Nat) (fs : FS)
    (input_path : Path) (theme : String) : List FS :=
  let output_path := posterOut input_path theme
  let tmp_output := posterTmp input_path theme
  let full := posterContent quality (contentOf fs input_path)
  fs ::
    ((List.range (full.length + 1)).map
      (fun k => fs.setFile tmp_output ⟨full.take k, t⟩)
    ++ [(fs.setFile tmp_output ⟨full, t⟩).rename tmp_output output_path])

/-! ## `stage_assets.sh` -/

/-- The relocation mode switch: `move` (default) or `copy` (`--copy`). -/
inductive Mode where
  | move
  | copy
deriving DecidableEq, Repr

/-- Per-step state of the stager: filesystem, clock, performed transfers
(source, destination) and log lines. -/
structure StageState where
  fs : FS
  time : Nat
  transfers : List (Path × Path)
  log : List String
deriving Repr

/-- `perform_transfer`: `mkdir -p "$(dirname dest)"`, then `cp -f` (copy
mode: fresh modification time, same content) or `mv -f` (move mode:
rename, data preserved). -/
def perform_transfer (mode : Mode) (now : Nat) (fs : FS) (src dest : Path) : FS :=
  match mode with
  | Mode.copy =>
      match (fs.mkdirp dest.dropLast).getFile src with
      | some d => (fs.mkdirp dest.dropLast).setFile dest ⟨d.content, now⟩
      | none => fs.mkdirp dest.dropLast
  | Mode.move => (fs.mkdirp dest.dropLast).rename src dest

/-- One transfer performed inside a stager loop, with bookkeeping. -/
def stageTransfer (mode : Mode) (st : StageState) (src dest : Path)
    (line : String) : StageState :=
  { fs := perform_transfer mode st.time st.fs src dest,
    time := st.time + 1,
    transfers := st.transfers ++ [(src, dest)],
    log := st.log ++ [line] }

/-- `process_videos`: resolve the theme's video root (skip if none), list
MP4/WebM files below it once, and relocate each to
`DEST_VIDEO_ROOT/<theme>/sde_animation/<relative>`. -/
def process_videos (mode : Mode) (st : StageState) (theme : String) : StageState :=
  match find_theme_video_root st.fs theme with
  | none =>
      { st with log := st.log ++
          ["Skip videos for " ++ theme ++ ": render directory not found."] }
  | some theme_source =>
      let files := findFiles st.fs theme_source [".mp4", ".webm"]
      let st' := files.foldl (fun s src_path =>
        let relative := src_path.drop theme_source.length
        let dest_path := DEST_VIDEO_ROOT ++ [theme, "sde_animation"] ++ relative
        stageTransfer mode s src_path dest_path
          ("[" ++ theme ++ "] video: " ++ pathKey relative)) st
      if files.isEmpty then
        { st' with log := st'.log ++
            ["Skip videos for " ++ theme ++ ": no MP4/WebM files."] }
      else st'

/-- The glob `"${SOURCE_POSTER_ROOT}"/*-"${theme}".jpg`: files directly in
the poster directory whose name ends in `-<theme>.jpg`, in sorted order. -/
def posterGlob (fs : FS) (theme : String) : List Path :=
  sortPaths ((fs.files.map (fun e => e.1)).filter (fun p =>
    p.dropLast == SOURCE_POSTER_ROOT && strEndsWith (lastName p) ("-" ++ theme ++ ".jpg")))

/-- `process_posters`: skip when the poster source directory is absent or
the glob is empty, otherwise relocate each poster into the flat
destination directory. -/
def process_posters (mode : Mode) (st : StageState) (theme : String) : StageState :=
  if !(st.fs.dirExists SOURCE_POSTER_ROOT) then
    { st with log := st.log ++
        ["Skip posters for " ++ theme ++ ": source directory not present."] }
  else
    let posters := posterGlob st.fs theme
    if posters.isEmpty then
      { st with log := st.log ++
          ["Skip posters for " ++ theme ++ ": none found."] }
    else
      posters.foldl (fun s src_path =>
        let dest_path := DEST_POSTER_ROOT ++ [lastName src_path]
        stageTransfer mode s src_path dest_path
          ("[" ++ theme ++ "] poster: " ++ lastName src_path)) st

/-- `sync_figures`: `cp -a SOURCE_FIGURE_ROOT/. DEST_FIGURE_ROOT/`
(unconditional, not per theme): every file and directory below the figure
source is copied, relative path and timestamps preserved. -/
def sync_figures (st : StageState) : StageState :=
  if !(st.fs.dirExists SOURCE_FIGURE_ROOT) then
    { st with log := st.log ++ ["Skip figures: source directory not present."] }
  else
    let withDirs :=
      { st.fs.mkdirp DEST_FIGURE_ROOT with
        dirs := (st.fs.mkdirp DEST_FIGURE_ROOT).dirs ++
          (st.fs.dirs.filter (fun d => SOURCE_FIGURE_ROOT.isPrefixOf d)).map
            (fun d => DEST_FIGURE_ROOT ++ d.drop SOURCE_FIGURE_ROOT.length) }
    { st with
      fs := (st.fs.files.filter (fun e => SOURCE_FIGURE_ROOT.isPrefixOf e.1)).foldl
        (fun f e => f.setFile (DEST_FIGURE_ROOT ++ e.1.drop SOURCE_FIGURE_ROOT.length) e.2)
        withDirs,
      log := st.log ++ ["Syncing figures into site/assets/images"] }

/-- Does any file live in the subtree rooted at `d`? -/
def subtreeHasFile (fs : FS) (d : Path) : Bool :=
  fs.files.any (fun e => d.isPrefixOf e.1)

/-- `find root -type d -empty -delete`: remove every directory below (or
at) `root` whose subtree holds no file. -/
def pruneEmptyDirs (fs : FS) (root : Path) : FS :=
  { fs with dirs := fs.dirs.filter (fun d => !(root.isPrefixOf d && !subtreeHasFile fs d)) }

/-- Top level of `stage_assets.sh` after argument parsing: create the
destination roots, run the per-theme video and poster relocation, sync the
figures, and — in move mode only — prune now-empty build directories. -/
def stage_main (mode : Mode) (argThemes : List String) (fs : FS) (t : Nat) :
    StageState × Nat :=
  let themes := if argThemes.isEmpty then ["dark", "light"] else argThemes
  let st0 : StageState :=
    { fs := ((fs.mkdirp DEST_VIDEO_ROOT).mkdirp DEST_POSTER_ROOT).mkdirp DEST_FIGURE_ROOT,
      time := t, transfers := [], log := [] }
  let st1 := themes.foldl
    (fun s theme => process_posters mode (process_videos mode s theme) theme) st0
  let st2 := sync_figures st1
  let st3 :=
    if mode ≠ Mode.copy then
      { st2 with fs := pruneEmptyDirs (pruneEmptyDirs st2.fs SOURCE_VIDEO_ROOT) SOURCE_POSTER_ROOT }
    else st2
  (st3, 0)

/-! ## `build_media.sh` -/

/-- One orchestrated script: its name and its behaviour as a state
transformer returning an exit code. -/
structure ScriptStep (σ : Type) where
  name : String
  run : List String → σ → σ × Nat

/-- Sequential execution under `set -e`: each step receives the forwarded
argument list; a non-zero exit aborts immediately with that code.  The
third component records the invocations actually performed (script name
and argument list). -/
def runSteps {σ : Type} : List (ScriptStep σ) → List String → σ →
    σ × Nat × List (String × List String)
  | [], _, s => (s, 0, [])
  | step :: rest, args, s =>
      let r := step.run args s
      if r.2 = 0 then
        let r' := runSteps rest args r.1
        (r'.1, r'.2.1, (step.name, args) :: r'.2.2)
      else
        (r.1, r.2, [(step.name, args)])

/-- `build_media.sh`: runs the render, WebM, poster and staging scripts in
this fixed order, forwarding the same arguments to each. -/
def build_media {σ : Type} (render encode posters stage : List String → σ → σ × Nat)
    (args : List String) (s : σ) : σ × Nat × List (String × List String) :=
  runSteps
    [ ⟨"render_scenes.sh", render⟩,
      ⟨"encode_webm.sh", encode⟩,
      ⟨"posters.sh", posters⟩,
      ⟨"stage_assets.sh", stage⟩ ] args s

/-! ## `render_scenes.sh` -/

/-- `tr '[:upper:]' '[:lower:]'` on one character (C locale: ASCII). -/
def trLowerChar (c : Char) : Char :=
  if 'A' ≤ c && c ≤ 'Z' then Char.ofNat (c.toNat + 32) else c

/-- `$(echo "${theme}" | tr '[:upper:]' '[:lower:]')`. -/
def trLower (s : String) : String :=
  String.mk (s.data.map trLowerChar)

/-- Modelled from the spec: the external animation renderer (manim) is a
black box that "writ[es] raw video output into a theme-scoped build
directory"; invoked with `--media_dir output_root` it writes its MP4
renders below `output_root/videos/sde_animation/720p60/` (the layout the
downstream scripts document and probe). -/
def manimRender (scene : String) (t : Nat) (output_root : Path) (fs : FS) : FS :=
  let d := output_root ++ ["videos", "sde_animation", "720p60"]
  (fs.mkdirp d).setFile (d ++ [scene ++ ".mp4"]) ⟨"render(" ++ scene ++ ")", t⟩

/-- One iteration of the theme loop of `render_scenes.sh`: lowercase the
theme, `mkdir -p` the theme-scoped output root, and invoke the renderer
on it. -/
def render_theme (scene : String) (t : Nat) (fs : FS) (theme : String) : FS :=
  let theme_lower := trLower theme
  let output_root := BUILD_ROOT ++ [theme_lower]
  manimRender scene t output_root (fs.mkdirp output_root)

/-- The theme loop of `render_scenes.sh` (themes default to dark, light). -/
def render_scenes_main (scene : String) (t : Nat)
    (argThemes : List String) (fs : FS) : FS :=
  (if argThemes.isEmpty then ["dark", "light"] else argThemes).foldl
    (render_theme scene t) fs

/-! ## Claim C3: move deletes the source, copy preserves it -/

theorem perform_transfer_copy_none (now : Nat) (fs : FS) (src dest : Path)
    (h : (fs.mkdirp dest.dropLast).getFile src = none) :
    perform_transfer Mode.copy now fs src dest = fs.mkdirp dest.dropLast := by
  unfold perform_transfer
  rw [h]

/-- C3: for every file the stager relocates (the source exists and is
distinct from the destination), move mode removes the source and the
destination receives its data, while copy mode leaves the source intact
and the destination holds byte-identical content. -/
theorem stager_move_removes_copy_preserves (now : Nat) (fs : FS) (src dest : Path)
    (d : FileData) (hne : src ≠ dest) (hs : fs.getFile src = some d) :
    ((perform_transfer Mode.move now fs src dest).getFile src = none ∧
     (perform_transfer Mode.move now fs src dest).getFile dest = some d) ∧
    ((perform_transfer Mode.copy now fs src dest).getFile src = some d ∧
     ∃ d2 : FileData, (perform_transfer Mode.copy now fs src dest).getFile dest = some d2 ∧
       d2.content = d.content) := by
  have hs1 : (fs.mkdirp dest.dropLast).getFile src = some d := by
    rw [getFile_mkdirp]; exact hs
  refine ⟨⟨?_, ?_⟩, ?_, ⟨d.content, now⟩, ?_, rfl⟩
  · show ((fs.mkdirp dest.dropLast).rename src dest).getFile src = none
    exact getFile_rename_src _ _ _ d hne hs1
  · show ((fs.mkdirp dest.dropLast).rename src dest).getFile dest = some d
    exact getFile_rename_dest _ _ _ d hs1
  · show (perform_transfer Mode.copy now fs src dest).getFile src = some d
    unfold perform_transfer
    rw [hs1]
    rw [getFile_setFile_ne _ _ _ _ hne, getFile_mkdirp]
    exact hs
  · show (perform_transfer Mode.copy now fs src dest).getFile dest = some ⟨d.content, now⟩
    unfold perform_transfer
    rw [hs1]
    exact getFile_setFile_self _ _ _

def fsW3 : FS :=
  { files := [(["build", "x.webm"], ⟨"vid", 3⟩)], dirs := [] }

theorem stager_move_removes_copy_preserves_witness :
    ((perform_transfer Mode.move 9 fsW3 ["build", "x.webm"] ["site", "x.webm"]).getFile
        ["build", "x.webm"] = none ∧
     (perform_transfer Mode.move 9 fsW3 ["build", "x.webm"] ["site", "x.webm"]).getFile
        ["site", "x.webm"] = some ⟨"vid", 3⟩) ∧
    ((perform_transfer Mode.copy 9 fsW3 ["build", "x.webm"] ["site", "x.webm"]).getFile
        ["build", "x.webm"] = some ⟨"vid", 3⟩ ∧
     ∃ d2 : FileData,
       (perform_transfer Mode.copy 9 fsW3 ["build", "x.webm"] ["site", "x.webm"]).getFile
          ["site", "x.webm"] = some d2 ∧ d2.content = "vid") :=
  stager_move_removes_copy_preserves 9 fsW3 ["build", "x.webm"] ["site", "x.webm"]
    ⟨"vid", 3⟩ (by decide) (by rfl)

/-! ## Claim C8: missing ffmpeg aborts before anything happens -/

/-- C8: when the external transcoder is absent, both the WebM step and the
poster step exit with code 1, a diagnostic on the error stream, the
filesystem untouched and no theme processed (no encoder invocation). -/
theorem missing_ffmpeg_exits_one (crf pix_fmt quality : String) (force : Bool)
    (argThemes : List String) (fs : FS) (t : Nat) :
    encode_main false crf pix_fmt force argThemes fs t =
      ({ fs := fs, time := t, calls := [], log := ["Error: ffmpeg not found in PATH."] }, 1) ∧
    posters_main false quality force argThemes fs t =
      ({ fs := fs, time := t, calls := [], log := ["Error: ffmpeg not found in PATH."] }, 1) :=
  ⟨rfl, rfl⟩

/-! ## Claim C5: the orchestrator -/

/-- C5: `build_media.sh` invokes the four steps in the fixed order
render, WebM transcode, poster extraction, staging, forwarding the same
argument list to each; the first step exiting non-zero aborts the run
immediately (remaining steps are not invoked) and the state is exactly
whatever the completed steps produced — no rollback. -/
theorem build_media_order_and_abort {σ : Type}
    (render encode posters stage : List String → σ → σ × Nat)
    (args : List String) (s : σ) :
    ((render args s).2 ≠ 0 →
       build_media render encode posters stage args s =
         ((render args s).1, (render args s).2, [("render_scenes.sh", args)])) ∧
    ((render args s).2 = 0 →
     (encode args (render args s).1).2 ≠ 0 →
       build_media render encode posters stage args s =
         ((encode args (render args s).1).1, (encode args (render args s).1).2,
          [("render_scenes.sh", args), ("encode_webm.sh", args)])) ∧
    ((render args s).2 = 0 →
     (encode args (render args s).1).2 = 0 →
     (posters args (encode args (render args s).1).1).2 ≠ 0 →
       build_media render encode posters stage args s =
         ((posters args (encode args (render args s).1).1).1,
          (posters args (encode args (render args s).1).1).2,
          [("render_scenes.sh", args), ("encode_webm.sh", args), ("posters.sh", args)])) ∧
    ((render args s).2 = 0 →
     (encode args (render args s).1).2 = 0 →
     (posters args (encode args (render args s).1).1).2 = 0 →
     (stage args (posters args (encode args (render args s).1).1).1).2 ≠ 0 →
       build_media render encode posters stage args s =
         ((stage args (posters args (encode args (render args s).1).1).1).1,
          (stage args (posters args (encode args (render args s).1).1).1).2,
          [("render_scenes.sh", args), ("encode_webm.sh", args), ("posters.sh", args),
           ("stage_assets.sh", args)])) ∧
    ((render args s).2 = 0 →
     (encode args (render args s).1).2 = 0 →
     (posters args (encode args (render args s).1).1).2 = 0 →
     (stage args (posters args (encode args (render args s).1).1).1).2 = 0 →
       build_media render encode posters stage args s =
         ((stage args (posters args (encode args (render args s).1).1).1).1, 0,
          [("render_scenes.sh", args), ("encode_webm.sh", args), ("posters.sh", args),
           ("stage_assets.sh", args)])) := by
  refine ⟨?_, ?_, ?_, ?_, ?_⟩
  · intro h1
    simp [build_media, runSteps, h1]
  · intro h1 h2
    simp [build_media, runSteps, h1, h2]
  · intro h1 h2 h3
    simp [build_media, runSteps, h1, h2, h3]
  · intro h1 h2 h3 h4
    simp [build_media, runSteps, h1, h2, h3, h4]
  · intro h1 h2 h3 h4
    simp [build_media, runSteps, h1, h2, h3, h4]

def stepOkW5 : List String → Nat → Nat × Nat := fun _ n => (n + 1, 0)

def stepFailW5 : List String → Nat → Nat × Nat := fun _ n => (n + 10, 7)

theorem build_media_order_and_abort_witness :
    (build_media stepOkW5 stepOkW5 stepOkW5 stepOkW5 ["dark"] 0 =
      (4, 0, [("render_scenes.sh", ["dark"]), ("encode_webm.sh", ["dark"]),
              ("posters.sh", ["dark"]), ("stage_assets.sh", ["dark"])])) ∧
    (build_media stepOkW5 stepFailW5 stepOkW5 stepOkW5 ["dark"] 0 =
      (11, 7, [("render_scenes.sh", ["dark"]), ("encode_webm.sh", ["dark"])])) :=
  ⟨(build_media_order_and_abort stepOkW5 stepOkW5 stepOkW5 stepOkW5 ["dark"] 0).2.2.2.2
      rfl rfl rfl rfl,
   (build_media_order_and_abort stepOkW5 stepFailW5 stepOkW5 stepOkW5 ["dark"] 0).2.1
      rfl (by decide)⟩

/-! ## Claim C2: poster output is only updated by an atomic rename -/

theorem str_ne_append_tmp (s : String) : s ≠ s ++ ".tmp" := by
  intro h
  have hlen := congrArg String.length h
  rw [String.length_append] at hlen
  have h4 : String.length ".tmp" = 4 := rfl
  omega

theorem posterTmp_ne_posterOut (input_path : Path) (theme : String) :
    posterTmp input_path theme ≠ posterOut input_path theme := by
  unfold posterTmp posterOut POSTER_ROOT
  intro h
  have := List.append_inj_right h rfl
  have hname := List.head_eq_of_cons_eq this
  exact str_ne_append_tmp _ hname.symm

/-- C2: the poster step writes via a temporary path distinct from the
destination, and in every intermediate filesystem state of processing one
input the destination either still holds exactly what it held before (in
particular: nothing, or the previous complete poster) or already holds the
new complete poster; the final state holds the new complete poster. -/
theorem poster_destination_never_halfway (quality : String) (t : Nat) (fs : FS)
    (input_path : Path) (theme : String) :
    posterTmp input_path theme ≠ posterOut input_path theme ∧
    (∀ s ∈ posterWriteStates quality t fs input_path theme,
      s.getFile (posterOut input_path theme) = fs.getFile (posterOut input_path theme) ∨
      s.getFile (posterOut input_path theme) =
        some ⟨posterContent quality (contentOf fs input_path), t⟩) ∧
    (∃ sLast : FS,
      (posterWriteStates quality t fs input_path theme).getLast? = some sLast ∧
      sLast.getFile (posterOut input_path theme) =
        some ⟨posterContent quality (contentOf fs input_path), t⟩) := by
  have htmp := posterTmp_ne_posterOut input_path theme
  have hout_ne : posterOut input_path theme ≠ posterTmp input_path theme :=
    fun h => htmp h.symm
  have hfin :
      ((fs.setFile (posterTmp input_path theme)
          ⟨posterContent quality (contentOf fs input_path), t⟩).rename
        (posterTmp input_path theme) (posterOut input_path theme)).getFile
          (posterOut input_path theme) =
        some ⟨posterContent quality (contentOf fs input_path), t⟩ :=
    getFile_rename_dest _ _ _ _ (getFile_setFile_self _ _ _)
  refine ⟨htmp, ?_, ?_⟩
  · intro s hs
    simp only [posterWriteStates, List.mem_cons, List.mem_append, List.mem_map,
      List.mem_range, List.mem_singleton] at hs
    rcases hs with rfl | (⟨k, _, rfl⟩ | rfl | hnil)
    · exact Or.inl rfl
    · exact Or.inl (getFile_setFile_ne _ _ _ _ hout_ne)
    · exact Or.inr hfin
    · exact absurd hnil (List.not_mem_nil _)
  · refine ⟨_, ?_, hfin⟩
    show (fs :: (_ ++ [_])).getLast? = _
    rw [← List.cons_append, List.getLast?_concat]

def fsW2 : FS :=
  { files := [(["build", "manim", "dark", "videos", "sde_animation", "intro.mp4"],
      ⟨"m", 0⟩)],
    dirs := [] }

theorem poster_destination_never_halfway_witness :
    fsW2.getFile
        (posterOut ["build", "manim", "dark", "videos", "sde_animation", "intro.mp4"] "dark") =
      fsW2.getFile
        (posterOut ["build", "manim", "dark", "videos", "sde_animation", "intro.mp4"] "dark") ∨
    fsW2.getFile
        (posterOut ["build", "manim", "dark", "videos", "sde_animation", "intro.mp4"] "dark") =
      some ⟨posterContent "2"
          (contentOf fsW2 ["build", "manim", "dark", "videos", "sde_animation", "intro.mp4"]),
        7⟩ :=
  (poster_destination_never_halfway "2" 7 fsW2
      ["build", "manim", "dark", "videos", "sde_animation", "intro.mp4"] "dark").2.1
    fsW2 (List.mem_cons_self _ _)

/-! ## Claim C1: up-to-date artifacts are not re-encoded -/

/-- The freshness relation of the spec: the derived artifact exists and is
strictly newer than its source. -/
def UpToDate (fs : FS) (inp out : Path) : Prop :=
  ∃ o i : FileData, fs.getFile out = some o ∧ fs.getFile inp = some i ∧ i.mtime < o.mtime

theorem skipUpToDate_iff (force : Bool) (fs : FS) (inp out : Path)
    (hin : (fs.getFile inp).isSome = true) :
    skipUpToDate force fs inp out = true ↔ (force = false ∧ UpToDate fs inp out) := by
  obtain ⟨i, hi⟩ := Option.isSome_iff_exists.mp hin
  cases force with
  | true => simp [skipUpToDate, UpToDate]
  | false =>
      cases ho : fs.getFile out with
      | none => simp [skipUpToDate, FS.fileExists, ho, UpToDate]
      | some o => simp [skipUpToDate, FS.fileExists, ho, newerB, hi, UpToDate]

/-- C1: for a source video file, when the force flag is unset and the
derived artifact (WebM sibling for the transcoder, JPEG poster for the
poster step) exists with a modification time newer than the source's, the
step performs no encoder invocation for that file and leaves the whole
filesystem — in particular the artifact's content and mtime — unchanged;
in every other case the encoder is invoked for that file. -/
theorem fresh_artifact_not_reencoded (crf pix_fmt quality theme : String) (force : Bool)
    (st : StepState) (inp : Path) (hin : (st.fs.getFile inp).isSome = true) :
    ((force = false ∧ UpToDate st.fs inp (webmOutput inp)) →
       (encodeFile crf pix_fmt force theme st inp).calls = st.calls ∧
       (encodeFile crf pix_fmt force theme st inp).fs = st.fs) ∧
    (¬(force = false ∧ UpToDate st.fs inp (webmOutput inp)) →
       (encodeFile crf pix_fmt force theme st inp).calls = st.calls ++ [inp]) ∧
    ((force = false ∧ UpToDate st.fs inp (posterOut inp theme)) →
       (posterFile quality force theme st inp).calls = st.calls ∧
       (posterFile quality force theme st inp).fs = st.fs) ∧
    (¬(force = false ∧ UpToDate st.fs inp (posterOut inp theme)) →
       (posterFile quality force theme st inp).calls = st.calls ++ [inp]) := by
  refine ⟨?_, ?_, ?_, ?_⟩
  · intro h
    have hb := (skipUpToDate_iff force st.fs inp (webmOutput inp) hin).mpr h
    simp [encodeFile, hb]
  · intro h
    have hb : skipUpToDate force st.fs inp (webmOutput inp) = false :=
      Bool.eq_false_iff.mpr
        (fun hb => h ((skipUpToDate_iff force st.fs inp (webmOutput inp) hin).mp hb))
    simp [encodeFile, hb]
  · intro h
    have hb := (skipUpToDate_iff force st.fs inp (posterOut inp theme) hin).mpr h
    simp [posterFile, hb]
  · intro h
    have hb : skipUpToDate force st.fs inp (posterOut inp theme) = false :=
      Bool.eq_false_iff.mpr
        (fun hb => h ((skipUpToDate_iff force st.fs inp (posterOut inp theme) hin).mp hb))
    simp [posterFile, hb]

def fsW1 : FS :=
  { files := [ (["v", "in.mp4"], ⟨"m", 0⟩),
      (["v", "in.webm"], ⟨"w", 5⟩),
      (POSTER_ROOT ++ ["in-dark.jpg"], ⟨"j", 5⟩) ],
    dirs := [] }

def stW1 : StepState := { fs := fsW1, time := 9, calls := [], log := [] }

theorem fresh_artifact_not_reencoded_witness :
    ((encodeFile "32" "yuv420p" false "dark" stW1 ["v", "in.mp4"]).calls = [] ∧
     (encodeFile "32" "yuv420p" false "dark" stW1 ["v", "in.mp4"]).fs = fsW1) ∧
    ((posterFile "2" false "dark" stW1 ["v", "in.mp4"]).calls = [] ∧
     (posterFile "2" false "dark" stW1 ["v", "in.mp4"]).fs = fsW1) := by
  have h := fresh_artifact_not_reencoded "32" "yuv420p" "2" "dark" false stW1
    ["v", "in.mp4"] (by rfl)
  exact ⟨h.1 ⟨rfl, ⟨"w", 5⟩, ⟨"m", 0⟩, rfl, rfl, by decide⟩,
    h.2.2.1 ⟨rfl, ⟨"j", 5⟩, ⟨"m", 0⟩, rfl, rfl, by decide⟩⟩

/-! ## Claim C7: with force, the encoder runs exactly once per file -/

theorem skipUpToDate_force (fs : FS) (inp out : Path) :
    skipUpToDate true fs inp out = false := by
  simp [skipUpToDate]

theorem encode_foldl_calls_force (crf pix_fmt theme : String) :
    ∀ (l : List Path) (st : StepState),
      (l.foldl (encodeFile crf pix_fmt true theme) st).calls = st.calls ++ l := by
  intro l
  induction l with
  | nil => intro st; simp
  | cons a rest ih =>
      intro st
      rw [List.foldl_cons, ih]
      simp [encodeFile, skipUpToDate_force]

theorem poster_foldl_calls_force (quality theme : String) :
    ∀ (l : List Path) (st : StepState),
      (l.foldl (posterFile quality true theme) st).calls = st.calls ++ l := by
  intro l
  induction l with
  | nil => intro st; simp
  | cons a rest ih =>
      intro st
      rw [List.foldl_cons, ih]
      simp [posterFile, skipUpToDate_force]

theorem findFiles_nodup (fs : FS) (root : Path) (exts : List String)
    (h : (fs.files.map (fun e => e.1)).Nodup) :
    (findFiles fs root exts).Nodup := by
  have hp := List.perm_insertionSort pathLe
    ((fs.files.map (fun e => e.1)).filter (fun p =>
      root.isPrefixOf p && exts.any (fun e => nameHasExt p e) && !inPartialDir p))
  exact hp.nodup_iff.mpr (h.filter _)

theorem count_one_of_nodup_mem {α : Type} [BEq α] [LawfulBEq α] {l : List α} {a : α}
    (hn : l.Nodup) (hm : a ∈ l) : l.count a = 1 := by
  induction l with
  | nil => cases hm
  | cons b rest ih =>
      rcases List.mem_cons.mp hm with rfl | hm'
      · rw [List.count_cons_self, List.count_eq_zero.mpr (List.nodup_cons.mp hn).1]
      · have hb : a ≠ b := fun h => (List.nodup_cons.mp hn).1 (h ▸ hm')
        rw [List.count_cons_of_ne hb]
        exact ih (List.nodup_cons.mp hn).2 hm'

/-- C7: with the force flag set, for every source video below a resolved
theme root the step appends exactly one encoder invocation for that file
— for both the WebM transcoder and the poster extractor. -/
theorem force_invokes_encoder_once (crf pix_fmt quality theme : String)
    (st : StepState) (root inp : Path)
    (hwf : (st.fs.files.map (fun e => e.1)).Nodup)
    (hroot : find_theme_root st.fs theme = some root)
    (hmem : inp ∈ findFiles st.fs root [".mp4"]) :
    (process_theme crf pix_fmt true st theme).calls.count inp = st.calls.count inp + 1 ∧
    (generate_for_theme quality true st theme).calls.count inp = st.calls.count inp + 1 := by
  have hone : (findFiles st.fs root [".mp4"]).count inp = 1 :=
    count_one_of_nodup_mem (findFiles_nodup st.fs root [".mp4"] hwf) hmem
  constructor
  · have hcalls : (process_theme crf pix_fmt true st theme).calls =
        st.calls ++ findFiles st.fs root [".mp4"] := by
      unfold process_theme
      rw [hroot]
      by_cases he : (findFiles st.fs root [".mp4"]).isEmpty <;>
        simp [he, encode_foldl_calls_force]
    rw [hcalls, List.count_append, hone]
  · have hcalls : (generate_for_theme quality true st theme).calls =
        st.calls ++ findFiles st.fs root [".mp4"] := by
      unfold generate_for_theme
      rw [hroot]
      by_cases he : (findFiles st.fs root [".mp4"]).isEmpty <;>
        simp [he, poster_foldl_calls_force]
    rw [hcalls, List.count_append, hone]

def fsW7 : FS :=
  { files := [(["build", "manim", "dark", "videos", "sde_animation", "intro.mp4"],
      ⟨"m", 0⟩)],
    dirs := [["build", "manim", "dark", "videos", "sde_animation"]] }

def stW7 : StepState := { fs := fsW7, time := 0, calls := [], log := [] }

theorem force_invokes_encoder_once_witness :
    (process_theme "32" "yuv420p" true stW7 "dark").calls.count
        ["build", "manim", "dark", "videos", "sde_animation", "intro.mp4"] = 1 ∧
    (generate_for_theme "2" true stW7 "dark").calls.count
        ["build", "manim", "dark", "videos", "sde_animation", "intro.mp4"] = 1 :=
  force_invokes_encoder_once "32" "yuv420p" "2" "dark" stW7
    ["build", "manim", "dark", "videos", "sde_animation"]
    ["build", "manim", "dark", "videos", "sde_animation", "intro.mp4"]
    (by decide) (by rfl) (by decide)

/-! ## Claim C6: concrete end-to-end scenario -/

/-- One render `intro.mp4` under the dark theme root, no other outputs. -/
def fsC6 : FS :=
  { files := [(["build", "manim", "dark", "videos", "sde_animation", "intro.mp4"],
      ⟨"mp4(intro)", 0⟩)],
    dirs := pathPrefixes ["build", "manim", "dark", "videos", "sde_animation"] }

/-- Run the WebM transcoder, then the poster extractor, then the stager,
each with default options (default themes, no force, move mode). -/
def pipelineC6 : FS :=
  let e := encode_main true "32" "yuv420p" false [] fsC6 1
  let p := posters_main true "2" false [] e.1.fs e.1.time
  let s := stage_main Mode.move [] p.1.fs p.1.time
  s.1.fs

/-- C6: the pipeline produces `site/assets/videos/dark/sde_animation/intro.webm`
and `site/assets/posters/intro-dark.jpg`, and afterwards the dark build
tree holds no `intro.mp4` any more (it was moved). -/
theorem end_to_end_dark_intro :
    (pipelineC6.getFile
        ["site", "assets", "videos", "dark", "sde_animation", "intro.webm"]).isSome = true ∧
    (pipelineC6.getFile ["site", "assets", "posters", "intro-dark.jpg"]).isSome = true ∧
    pipelineC6.files.all
      (fun e => !(["build", "manim", "dark"].isPrefixOf e.1 && lastName e.1 == "intro.mp4")) =
      true := by
  refine ⟨?_, ?_, ?_⟩ <;> decide

/-! ## Claim C4: ordered probe, skip-and-continue

Machinery: two step states are `SameCore` when they agree on everything
except the log; an unresolvable theme only appends a log line, so the run
on a theme list is `SameCore` to the run with that theme filtered out. -/

def SameCore (s1 s2 : StepState) : Prop :=
  s1.fs = s2.fs ∧ s1.time = s2.time ∧ s1.calls = s2.calls

theorem sameCore_refl (s : StepState) : SameCore s s := ⟨rfl, rfl, rfl⟩

theorem sameCore_trans {a b c : StepState} (h1 : SameCore a b) (h2 : SameCore b c) :
    SameCore a c :=
  ⟨h1.1.trans h2.1, h1.2.1.trans h2.2.1, h1.2.2.trans h2.2.2⟩

theorem encodeFile_sameCore (crf pix_fmt : String) (force : Bool) (theme : String)
    {s1 s2 : StepState} (h : SameCore s1 s2) (p : Path) :
    SameCore (encodeFile crf pix_fmt force theme s1 p)
      (encodeFile crf pix_fmt force theme s2 p) := by
  obtain ⟨hf, ht, hc⟩ := h
  by_cases hb : skipUpToDate force s1.fs p (webmOutput p) = true
  · have hb2 : skipUpToDate force s2.fs p (webmOutput p) = true := hf ▸ hb
    refine ⟨?_, ?_, ?_⟩ <;> simp [encodeFile, hb, hb2, hf, ht, hc]
  · have hb1 : skipUpToDate force s1.fs p (webmOutput p) = false := Bool.eq_false_iff.mpr hb
    have hb2 : skipUpToDate force s2.fs p (webmOutput p) = false := hf ▸ hb1
    refine ⟨?_, ?_, ?_⟩ <;> simp [encodeFile, hb1, hb2, hf, ht, hc]

theorem posterFile_sameCore (quality : String) (force : Bool) (theme : String)
    {s1 s2 : StepState} (h : SameCore s1 s2) (p : Path) :
    SameCore (posterFile quality force theme s1 p)
      (posterFile quality force theme s2 p) := by
  obtain ⟨hf, ht, hc⟩ := h
  by_cases hb : skipUpToDate force s1.fs p (posterOut p theme) = true
  · have hb2 : skipUpToDate force s2.fs p (posterOut p theme) = true := hf ▸ hb
    refine ⟨?_, ?_, ?_⟩ <;> simp [posterFile, hb, hb2, hf, ht, hc]
  · have hb1 : skipUpToDate force s1.fs p (posterOut p theme) = false := Bool.eq_false_iff.mpr hb
    have hb2 : skipUpToDate force s2.fs p (posterOut p theme) = false := hf ▸ hb1
    refine ⟨?_, ?_, ?_⟩ <;> simp [posterFile, hb1, hb2, hf, ht, hc]

theorem foldl_sameCore {α : Type} (f : StepState → α → StepState)
    (hf : ∀ (s1 s2 : StepState) (a : α), SameCore s1 s2 → SameCore (f s1 a) (f s2 a)) :
    ∀ (l : List α) (s1 s2 : StepState), SameCore s1 s2 →
      SameCore (l.foldl f s1) (l.foldl f s2) := by
  intro l
  induction l with
  | nil => intro s1 s2 h; exact h
  | cons a rest ih => intro s1 s2 h; exact ih _ _ (hf _ _ _ h)

theorem sameCore_log_update {s1 s2 : StepState} (h : SameCore s1 s2) (L1 L2 : List String) :
    SameCore { s1 with log := L1 } { s2 with log := L2 } :=
  ⟨h.1, h.2.1, h.2.2⟩

theorem process_theme_unresolvable (crf pix_fmt : String) (force : Bool)
    (st : StepState) (T : String) (h : find_theme_root st.fs T = none) :
    process_theme crf pix_fmt force st T = { st with log := st.log ++ [skipRootMsg T] } := by
  unfold process_theme
  rw [h]

theorem generate_for_theme_unresolvable (quality : String) (force : Bool)
    (st : StepState) (T : String) (h : find_theme_root st.fs T = none) :
    generate_for_theme quality force st T = { st with log := st.log ++ [skipRootMsg T] } := by
  unfold generate_for_theme
  rw [h]

theorem process_theme_resolved (crf pix_fmt : String) (force : Bool)
    (st : StepState) (theme : String) (root : Path)
    (h : find_theme_root st.fs theme = some root) :
    process_theme crf pix_fmt force st theme =
      (if (findFiles st.fs root [".mp4"]).isEmpty then
        { ((findFiles st.fs root [".mp4"]).foldl (encodeFile crf pix_fmt force theme) st) with
          log := ((findFiles st.fs root [".mp4"]).foldl
              (encodeFile crf pix_fmt force theme) st).log ++
            ["Skip " ++ theme ++ ": no MP4 files found."] }
      else (findFiles st.fs root [".mp4"]).foldl (encodeFile crf pix_fmt force theme) st) := by
  unfold process_theme
  rw [h]

theorem generate_for_theme_resolved (quality : String) (force : Bool)
    (st : StepState) (theme : String) (root : Path)
    (h : find_theme_root st.fs theme = some root) :
    generate_for_theme quality force st theme =
      (if (findFiles st.fs root [".mp4"]).isEmpty then
        { ((findFiles st.fs root [".mp4"]).foldl (posterFile quality force theme) st) with
          log := ((findFiles st.fs root [".mp4"]).foldl
              (posterFile quality force theme) st).log ++
            ["Skip " ++ theme ++ ": no MP4 files found."] }
      else (findFiles st.fs root [".mp4"]).foldl (posterFile quality force theme) st) := by
  unfold generate_for_theme
  rw [h]

theorem process_theme_sameCore (crf pix_fmt : String) (force : Bool)
    {s1 s2 : StepState} (h : SameCore s1 s2) (theme : String) :
    SameCore (process_theme crf pix_fmt force s1 theme)
      (process_theme crf pix_fmt force s2 theme) := by
  have hf := h.1
  cases hr : find_theme_root s1.fs theme with
  | none =>
      have hr2 : find_theme_root s2.fs theme = none := by rw [← hf]; exact hr
      rw [process_theme_unresolvable crf pix_fmt force s1 theme hr,
        process_theme_unresolvable crf pix_fmt force s2 theme hr2]
      exact ⟨h.1, h.2.1, h.2.2⟩
  | some root =>
      have hr2 : find_theme_root s2.fs theme = some root := by rw [← hf]; exact hr
      rw [process_theme_resolved crf pix_fmt force s1 theme root hr,
        process_theme_resolved crf pix_fmt force s2 theme root hr2]
      rw [hf]
      have hfold := foldl_sameCore (encodeFile crf pix_fmt force theme)
        (fun _ _ p hab => encodeFile_sameCore crf pix_fmt force theme hab p)
        (findFiles s2.fs root [".mp4"]) s1 s2 h
      by_cases he : (findFiles s2.fs root [".mp4"]).isEmpty
      · rw [if_pos he, if_pos he]
        exact sameCore_log_update hfold _ _
      · rw [if_neg he, if_neg he]
        exact hfold

theorem generate_for_theme_sameCore (quality : String) (force : Bool)
    {s1 s2 : StepState} (h : SameCore s1 s2) (theme : String) :
    SameCore (generate_for_theme quality force s1 theme)
      (generate_for_theme quality force s2 theme) := by
  have hf := h.1
  cases hr : find_theme_root s1.fs theme with
  | none =>
      have hr2 : find_theme_root s2.fs theme = none := by rw [← hf]; exact hr
      rw [generate_for_theme_unresolvable quality force s1 theme hr,
        generate_for_theme_unresolvable quality force s2 theme hr2]
      exact ⟨h.1, h.2.1, h.2.2⟩
  | some root =>
      have hr2 : find_theme_root s2.fs theme = some root := by rw [← hf]; exact hr
      rw [generate_for_theme_resolved quality force s1 theme root hr,
        generate_for_theme_resolved quality force s2 theme root hr2]
      rw [hf]
      have hfold := foldl_sameCore (posterFile quality force theme)
        (fun _ _ p hab => posterFile_sameCore quality force theme hab p)
        (findFiles s2.fs root [".mp4"]) s1 s2 h
      by_cases he : (findFiles s2.fs root [".mp4"]).isEmpty
      · rw [if_pos he, if_pos he]
        exact sameCore_log_update hfold _ _
      · rw [if_neg he, if_neg he]
        exact hfold

theorem encode_run_sameCore (crf pix_fmt : String) (force : Bool)
    (themes : List String) {s1 s2 : StepState} (h : SameCore s1 s2) :
    SameCore (encode_run crf pix_fmt force s1 themes)
      (encode_run crf pix_fmt force s2 themes) :=
  foldl_sameCore (process_theme crf pix_fmt force)
    (fun _ _ th hab => process_theme_sameCore crf pix_fmt force hab th) themes s1 s2 h

theorem posters_run_sameCore (quality : String) (force : Bool)
    (themes : List String) {s1 s2 : StepState} (h : SameCore s1 s2) :
    SameCore (posters_run quality force s1 themes)
      (posters_run quality force s2 themes) :=
  foldl_sameCore (generate_for_theme quality force)
    (fun _ _ th hab => generate_for_theme_sameCore quality force hab th) themes s1 s2 h

/-! Directory invariance: neither transcoding step ever creates or removes
a directory, so theme resolvability is stable across the run. -/

theorem encodeFile_dirs (crf pix_fmt : String) (force : Bool) (theme : String)
    (st : StepState) (p : Path) :
    (encodeFile crf pix_fmt force theme st p).fs.dirs = st.fs.dirs := by
  by_cases hb : skipUpToDate force st.fs p (webmOutput p) = true <;>
    simp [encodeFile, hb, FS.setFile]

theorem posterFile_dirs (quality : String) (force : Bool) (theme : String)
    (st : StepState) (p : Path) :
    (posterFile quality force theme st p).fs.dirs = st.fs.dirs := by
  by_cases hb : skipUpToDate force st.fs p (posterOut p theme) = true <;>
    simp [posterFile, hb, dirs_rename, FS.setFile]

theorem foldl_dirs {α : Type} (f : StepState → α → StepState)
    (hf : ∀ (s : StepState) (a : α), (f s a).fs.dirs = s.fs.dirs) :
    ∀ (l : List α) (s : StepState), (l.foldl f s).fs.dirs = s.fs.dirs := by
  intro l
  induction l with
  | nil => intro s; rfl
  | cons a rest ih => intro s; rw [List.foldl_cons, ih, hf]

theorem process_theme_dirs (crf pix_fmt : String) (force : Bool)
    (st : StepState) (theme : String) :
    (process_theme crf pix_fmt force st theme).fs.dirs = st.fs.dirs := by
  unfold process_theme
  cases hr : find_theme_root st.fs theme with
  | none => rfl
  | some root =>
      have hfold := foldl_dirs (encodeFile crf pix_fmt force theme)
        (encodeFile_dirs crf pix_fmt force theme) (findFiles st.fs root [".mp4"]) st
      by_cases he : (findFiles st.fs root [".mp4"]).isEmpty <;>
        simp only [he, if_true, if_false, Bool.false_eq_true, ite_true, ite_false] <;>
        exact hfold

theorem generate_for_theme_dirs (quality : String) (force : Bool)
    (st : StepState) (theme : String) :
    (generate_for_theme quality force st theme).fs.dirs = st.fs.dirs := by
  unfold generate_for_theme
  cases hr : find_theme_root st.fs theme with
  | none => rfl
  | some root =>
      have hfold := foldl_dirs (posterFile quality force theme)
        (posterFile_dirs quality force theme) (findFiles st.fs root [".mp4"]) st
      by_cases he : (findFiles st.fs root [".mp4"]).isEmpty <;>
        simp only [he, if_true, if_false, Bool.false_eq_true, ite_true, ite_false] <;>
        exact hfold

theorem find_theme_root_congr {fs1 fs2 : FS} (h : fs1.dirs = fs2.dirs) (theme : String) :
    find_theme_root fs1 theme = find_theme_root fs2 theme := by
  unfold find_theme_root FS.dirExists
  rw [h]

/-! Log monotonicity: steps only append log lines. -/

theorem encodeFile_log_mono (crf pix_fmt : String) (force : Bool) (theme : String)
    (st : StepState) (p : Path) (l : String) (h : l ∈ st.log) :
    l ∈ (encodeFile crf pix_fmt force theme st p).log := by
  simp only [encodeFile]
  by_cases hb : skipUpToDate force st.fs p (webmOutput p) = true
  · rw [if_pos hb]
    exact List.mem_append_left _ h
  · rw [if_neg hb]
    exact List.mem_append_left _ h

theorem posterFile_log_mono (quality : String) (force : Bool) (theme : String)
    (st : StepState) (p : Path) (l : String) (h : l ∈ st.log) :
    l ∈ (posterFile quality force theme st p).log := by
  simp only [posterFile]
  by_cases hb : skipUpToDate force st.fs p (posterOut p theme) = true
  · rw [if_pos hb]
    exact List.mem_append_left _ h
  · rw [if_neg hb]
    exact List.mem_append_left _ h

theorem foldl_log_mono {α : Type} (f : StepState → α → StepState)
    (hf : ∀ (s : StepState) (a : α) (l : String), l ∈ s.log → l ∈ (f s a).log) :
    ∀ (l : List α) (s : StepState) (x : String), x ∈ s.log → x ∈ (l.foldl f s).log := by
  intro l
  induction l with
  | nil => intro s x h; exact h
  | cons a rest ih => intro s x h; exact ih _ _ (hf _ _ _ h)

theorem process_theme_log_mono (crf pix_fmt : String) (force : Bool)
    (st : StepState) (theme : String) (l : String) (h : l ∈ st.log) :
    l ∈ (process_theme crf pix_fmt force st theme).log := by
  unfold process_theme
  cases hr : find_theme_root st.fs theme with
  | none => exact List.mem_append_left _ h
  | some root =>
      have hfold := foldl_log_mono (encodeFile crf pix_fmt force theme)
        (encodeFile_log_mono crf pix_fmt force theme)
        (findFiles st.fs root [".mp4"]) st l h
      by_cases he : (findFiles st.fs root [".mp4"]).isEmpty <;>
        simp only [he, if_true, if_false, Bool.false_eq_true, ite_true, ite_false]
      · exact List.mem_append_left _ hfold
      · exact hfold

theorem generate_for_theme_log_mono (quality : String) (force : Bool)
    (st : StepState) (theme : String) (l : String) (h : l ∈ st.log) :
    l ∈ (generate_for_theme quality force st theme).log := by
  unfold generate_for_theme
  cases hr : find_theme_root st.fs theme with
  | none => exact List.mem_append_left _ h
  | some root =>
      have hfold := foldl_log_mono (posterFile quality force theme)
        (posterFile_log_mono quality force theme)
        (findFiles st.fs root [".mp4"]) st l h
      by_cases he : (findFiles st.fs root [".mp4"]).isEmpty <;>
        simp only [he, if_true, if_false, Bool.false_eq_true, ite_true, ite_false]
      · exact List.mem_append_left _ hfold
      · exact hfold

theorem encode_run_log_mono (crf pix_fmt : String) (force : Bool)
    (themes : List String) (st : StepState) (l : String) (h : l ∈ st.log) :
    l ∈ (encode_run crf pix_fmt force st themes).log :=
  foldl_log_mono (process_theme crf pix_fmt force)
    (process_theme_log_mono crf pix_fmt force) themes st l h

theorem posters_run_log_mono (quality : String) (force : Bool)
    (themes : List String) (st : StepState) (l : String) (h : l ∈ st.log) :
    l ∈ (posters_run quality force st themes).log :=
  foldl_log_mono (generate_for_theme quality force)
    (generate_for_theme_log_mono quality force) themes st l h

/-! The skip lemmas proper. -/

theorem encode_run_skips_unresolvable (crf pix_fmt : String) (force : Bool) (T : String) :
    ∀ (themes : List String) (st : StepState), find_theme_root st.fs T = none →
      SameCore (encode_run crf pix_fmt force st themes)
        (encode_run crf pix_fmt force st (themes.filter (fun th => th != T))) := by
  intro themes
  induction themes with
  | nil => intro st _; exact sameCore_refl _
  | cons th rest ih =>
      intro st h
      by_cases hth : th = T
      · have hfilter : (th :: rest).filter (fun x => x != T) =
            rest.filter (fun x => x != T) := by
          simp [List.filter_cons, hth]
        have hproc : process_theme crf pix_fmt force st th =
            { st with log := st.log ++ [skipRootMsg th] } :=
          process_theme_unresolvable crf pix_fmt force st th (by rw [hth]; exact h)
        have hstep : encode_run crf pix_fmt force st (th :: rest) =
            encode_run crf pix_fmt force (process_theme crf pix_fmt force st th) rest := rfl
        rw [hstep, hfilter, hproc]
        have h1 : SameCore { st with log := st.log ++ [skipRootMsg th] } st := ⟨rfl, rfl, rfl⟩
        exact sameCore_trans
          (encode_run_sameCore crf pix_fmt force rest h1) (ih st h)
      · have hbne : (th != T) = true := by
          simp [bne_iff_ne, hth]
        have hfilter : (th :: rest).filter (fun x => x != T) =
            th :: rest.filter (fun x => x != T) := by
          simp [List.filter_cons, hbne]
        rw [hfilter]
        have hd : (process_theme crf pix_fmt force st th).fs.dirs = st.fs.dirs :=
          process_theme_dirs crf pix_fmt force st th
        exact ih (process_theme crf pix_fmt force st th)
          (by rw [find_theme_root_congr hd T]; exact h)

theorem posters_run_skips_unresolvable (quality : String) (force : Bool) (T : String) :
    ∀ (themes : List String) (st : StepState), find_theme_root st.fs T = none →
      SameCore (posters_run quality force st themes)
        (posters_run quality force st (themes.filter (fun th => th != T))) := by
  intro themes
  induction themes with
  | nil => intro st _; exact sameCore_refl _
  | cons th rest ih =>
      intro st h
      by_cases hth : th = T
      · have hfilter : (th :: rest).filter (fun x => x != T) =
            rest.filter (fun x => x != T) := by
          simp [List.filter_cons, hth]
        have hproc : generate_for_theme quality force st th =
            { st with log := st.log ++ [skipRootMsg th] } :=
          generate_for_theme_unresolvable quality force st th (by rw [hth]; exact h)
        have hstep : posters_run quality force st (th :: rest) =
            posters_run quality force (generate_for_theme quality force st th) rest := rfl
        rw [hstep, hfilter, hproc]
        have h1 : SameCore { st with log := st.log ++ [skipRootMsg th] } st := ⟨rfl, rfl, rfl⟩
        exact sameCore_trans
          (posters_run_sameCore quality force rest h1) (ih st h)
      · have hbne : (th != T) = true := by
          simp [bne_iff_ne, hth]
        have hfilter : (th :: rest).filter (fun x => x != T) =
            th :: rest.filter (fun x => x != T) := by
          simp [List.filter_cons, hbne]
        rw [hfilter]
        have hd : (generate_for_theme quality force st th).fs.dirs = st.fs.dirs :=
          generate_for_theme_dirs quality force st th
        exact ih (generate_for_theme quality force st th)
          (by rw [find_theme_root_congr hd T]; exact h)

theorem encode_run_logs_skip (crf pix_fmt : String) (force : Bool) (T : String) :
    ∀ (themes : List String) (st : StepState), find_theme_root st.fs T = none →
      T ∈ themes → skipRootMsg T ∈ (encode_run crf pix_fmt force st themes).log := by
  intro themes
  induction themes with
  | nil => intro st _ hmem; cases hmem
  | cons th rest ih =>
      intro st h hmem
      by_cases hth : th = T
      · show skipRootMsg T ∈
          (encode_run crf pix_fmt force (process_theme crf pix_fmt force st th) rest).log
        apply encode_run_log_mono
        rw [process_theme_unresolvable crf pix_fmt force st th (by rw [hth]; exact h), hth]
        exact List.mem_append_right _ (List.mem_singleton.mpr rfl)
      · rcases List.mem_cons.mp hmem with heq | hmem'
        · exact absurd heq.symm hth
        · have hd : (process_theme crf pix_fmt force st th).fs.dirs = st.fs.dirs :=
            process_theme_dirs crf pix_fmt force st th
          exact ih (process_theme crf pix_fmt force st th)
            (by rw [find_theme_root_congr hd T]; exact h) hmem'

theorem posters_run_logs_skip (quality : String) (force : Bool) (T : String) :
    ∀ (themes : List String) (st : StepState), find_theme_root st.fs T = none →
      T ∈ themes → skipRootMsg T ∈ (posters_run quality force st themes).log := by
  intro themes
  induction themes with
  | nil => intro st _ hmem; cases hmem
  | cons th rest ih =>
      intro st h hmem
      by_cases hth : th = T
      · show skipRootMsg T ∈
          (posters_run quality force (generate_for_theme quality force st th) rest).log
        apply posters_run_log_mono
        rw [generate_for_theme_unresolvable quality force st th (by rw [hth]; exact h), hth]
        exact List.mem_append_right _ (List.mem_singleton.mpr rfl)
      · rcases List.mem_cons.mp hmem with heq | hmem'
        · exact absurd heq.symm hth
        · have hd : (generate_for_theme quality force st th).fs.dirs = st.fs.dirs :=
            generate_for_theme_dirs quality force st th
          exact ih (generate_for_theme quality force st th)
            (by rw [find_theme_root_congr hd T]; exact h) hmem'

/-- C4: the theme-root resolver probes its four candidate layouts in their
fixed order and returns the first that exists as a directory (none if no
candidate exists); and when a theme `T` has no resolvable root, a whole
run over any theme list behaves — up to log lines — exactly like the run
with `T` removed (so every other theme is still processed and nothing
aborts), and if `T` was requested the skip diagnostic for `T` is logged.
Both the WebM step and the poster step behave this way. -/
theorem theme_root_probe_and_skip (fs : FS) (theme : String)
    (crf pix_fmt quality : String) (force : Bool)
    (st : StepState) (themes : List String) (T : String) :
    (find_theme_root fs theme =
      (if fs.dirExists (MEDIA_ROOT ++ [theme, "videos", "sde_animation"]) then
         some (MEDIA_ROOT ++ [theme, "videos", "sde_animation"])
       else if fs.dirExists (MEDIA_ROOT ++ [theme, "videos", "scenes"]) then
         some (MEDIA_ROOT ++ [theme, "videos", "scenes"])
       else if fs.dirExists (MEDIA_ROOT ++ ["videos", theme, "videos", "sde_animation"]) then
         some (MEDIA_ROOT ++ ["videos", theme, "videos", "sde_animation"])
       else if fs.dirExists (MEDIA_ROOT ++ ["videos", theme, "videos", "scenes"]) then
         some (MEDIA_ROOT ++ ["videos", theme, "videos", "scenes"])
       else none)) ∧
    (find_theme_root st.fs T = none →
      (SameCore (encode_run crf pix_fmt force st themes)
         (encode_run crf pix_fmt force st (themes.filter (fun th => th != T))) ∧
       (T ∈ themes → skipRootMsg T ∈ (encode_run crf pix_fmt force st themes).log)) ∧
      (SameCore (posters_run quality force st themes)
         (posters_run quality force st (themes.filter (fun th => th != T))) ∧
       (T ∈ themes → skipRootMsg T ∈ (posters_run quality force st themes).log))) := by
  constructor
  · by_cases h1 : fs.dirExists (MEDIA_ROOT ++ [theme, "videos", "sde_animation"]) <;>
    by_cases h2 : fs.dirExists (MEDIA_ROOT ++ [theme, "videos", "scenes"]) <;>
    by_cases h3 : fs.dirExists (MEDIA_ROOT ++ ["videos", theme, "videos", "sde_animation"]) <;>
    by_cases h4 : fs.dirExists (MEDIA_ROOT ++ ["videos", theme, "videos", "scenes"]) <;>
      simp [find_theme_root, themeCandidates, List.find?, h1, h2, h3, h4]
  · intro h
    exact ⟨⟨encode_run_skips_unresolvable crf pix_fmt force T themes st h,
        fun hmem => encode_run_logs_skip crf pix_fmt force T themes st h hmem⟩,
      ⟨posters_run_skips_unresolvable quality force T themes st h,
        fun hmem => posters_run_logs_skip quality force T themes st h hmem⟩⟩

def fsW4 : FS :=
  { files := [(["build", "manim", "dark", "videos", "sde_animation", "a.mp4"], ⟨"m", 0⟩)],
    dirs := [["build", "manim", "dark", "videos", "sde_animation"]] }

def stW4 : StepState := { fs := fsW4, time := 0, calls := [], log := [] }

theorem theme_root_probe_and_skip_witness :
    (SameCore (encode_run "32" "yuv420p" false stW4 ["nope", "dark"])
       (encode_run "32" "yuv420p" false stW4
         (["nope", "dark"].filter (fun th => th != "nope"))) ∧
     skipRootMsg "nope" ∈ (encode_run "32" "yuv420p" false stW4 ["nope", "dark"]).log) ∧
    (SameCore (posters_run "2" false stW4 ["nope", "dark"])
       (posters_run "2" false stW4 (["nope", "dark"].filter (fun th => th != "nope"))) ∧
     skipRootMsg "nope" ∈ (posters_run "2" false stW4 ["nope", "dark"]).log) := by
  have h := (theme_root_probe_and_skip fsW4 "dark" "32" "yuv420p" "2" false stW4
    ["nope", "dark"] "nope").2 (by decide)
  exact ⟨⟨h.1.1, h.1.2 (by decide)⟩, ⟨h.2.1, h.2.2 (by decide)⟩⟩

/-! ## Claim C9: the render step lowercases, downstream steps do not -/

theorem map_eq_self_mem {α : Type} (f : α → α) :
    ∀ (l : List α), l.map f = l → ∀ x ∈ l, f x = x := by
  intro l
  induction l with
  | nil => intro _ x hx; cases hx
  | cons a rest ih =>
      intro h x hx
      rw [List.map_cons] at h
      have h1 := List.head_eq_of_cons_eq h
      have h2 := List.tail_eq_of_cons_eq h
      rcases List.mem_cons.mp hx with rfl | hx'
      · exact h1
      · exact ih h2 x hx'

theorem trLowerChar_ne_of_upper (c : Char) (h : ('A' ≤ c && c ≤ 'Z') = true) :
    trLowerChar c ≠ c := by
  have hconj := h
  rw [Bool.and_eq_true] at hconj
  have h2 : c ≤ 'Z' := of_decide_eq_true hconj.2
  have hb : c.toNat ≤ 90 := by
    rw [Char.le_def, UInt32.le_def, BitVec.le_def] at h2
    exact h2
  have hvalid : (c.toNat + 32).isValidChar := Or.inl (by omega)
  have hval : (Char.ofNat (c.toNat + 32)).toNat = c.toNat + 32 := by
    unfold Char.ofNat
    rw [dif_pos hvalid]
    simp [Char.ofNatAux, Char.toNat, UInt32.toNat]
  intro heq
  rw [trLowerChar, if_pos h] at heq
  have := congrArg Char.toNat heq
  rw [hval] at this
  omega

theorem trLower_ne_of_upper (s : String)
    (h : s.data.any (fun c => 'A' ≤ c && c ≤ 'Z') = true) :
    trLower s ≠ s := by
  obtain ⟨c, hc, hcu⟩ := List.any_eq_true.mp h
  intro heq
  have hdata : s.data.map trLowerChar = s.data := congrArg String.data heq
  exact trLowerChar_ne_of_upper c hcu (map_eq_self_mem trLowerChar s.data hdata c hc)

theorem mem_mkdirp_iff (fs : FS) (p d : Path) :
    d ∈ (fs.mkdirp p).dirs ↔ d ∈ fs.dirs ∨ d ∈ pathPrefixes p := by
  simp only [FS.mkdirp, List.mem_append, List.mem_filter]
  constructor
  · rintro (h | ⟨h1, _⟩)
    · exact Or.inl h
    · exact Or.inr h1
  · rintro (h | h)
    · exact Or.inl h
    · by_cases hc : d ∈ fs.dirs
      · exact Or.inl hc
      · refine Or.inr ⟨h, ?_⟩
        rw [Bool.not_eq_true']
        rw [← Bool.not_eq_true]
        intro hb
        exact hc (List.elem_iff.mp hb)

theorem mem_pathPrefixes (p d : Path) :
    d ∈ pathPrefixes p ↔ ∃ i, i ≤ p.length ∧ p.take i = d := by
  simp [pathPrefixes, List.mem_map, List.mem_range, Nat.lt_succ_iff]

/-- The filesystem after rendering one theme starting from nothing. -/
def renderedFS (scene : String) (t : Nat) (theme : String) : FS :=
  render_theme scene t { files := [], dirs := [] } theme

theorem renderedFS_dirs_mem (scene theme : String) (t : Nat) (d : Path) :
    d ∈ (renderedFS scene t theme).dirs ↔
      d ∈ pathPrefixes (BUILD_ROOT ++ [trLower theme]) ∨
      d ∈ pathPrefixes
        (BUILD_ROOT ++ [trLower theme] ++ ["videos", "sde_animation", "720p60"]) := by
  have hd : (renderedFS scene t theme).dirs =
      ((({ files := [], dirs := [] } : FS).mkdirp (BUILD_ROOT ++ [trLower theme])).mkdirp
        (BUILD_ROOT ++ [trLower theme] ++ ["videos", "sde_animation", "720p60"])).dirs := by
    simp only [renderedFS, render_theme, manimRender, FS.setFile, List.append_assoc]
  rw [hd, mem_mkdirp_iff, mem_mkdirp_iff]
  simp

theorem find_theme_video_root_eq (fs : FS) (theme : String) :
    find_theme_video_root fs theme = find_theme_root fs theme := rfl

theorem process_videos_unresolvable (mode : Mode) (st : StageState) (T : String)
    (h : find_theme_video_root st.fs T = none) :
    process_videos mode st T =
      { st with log := st.log ++ ["Skip videos for " ++ T ++ ": render directory not found."] } := by
  unfold process_videos
  rw [h]

theorem not_mem_rendered_dirs (scene theme : String) (t : Nat) (c : Path)
    (hlen : c.length = 5 ∨ c.length = 6)
    (h5 : c.length = 5 →
      ["build", "manim", trLower theme, "videos", "sde_animation"] ≠ c)
    (h6 : c.length = 6 →
      ["build", "manim", trLower theme, "videos", "sde_animation", "720p60"] ≠ c) :
    c ∉ (renderedFS scene t theme).dirs := by
  intro hmem
  rw [renderedFS_dirs_mem, mem_pathPrefixes, mem_pathPrefixes] at hmem
  have hr3 : (BUILD_ROOT ++ [trLower theme]).length = 3 := rfl
  have hr6 : (BUILD_ROOT ++ [trLower theme] ++
      ["videos", "sde_animation", "720p60"]).length = 6 := rfl
  rcases hmem with ⟨i, hi, heq⟩ | ⟨j, hj, heq⟩
  · have hl := congrArg List.length heq
    rw [List.length_take, hr3] at hl
    rw [hr3] at hi
    omega
  · have hl := congrArg List.length heq
    rw [List.length_take, hr6] at hl
    rw [hr6] at hj
    rcases hlen with h5' | h6'
    · have hj5 : j = 5 := by omega
      subst hj5
      exact (h5 h5') heq
    · have hj6 : j = 6 := by omega
      subst hj6
      exact (h6 h6') heq

theorem rendered_candidates_not_found (scene theme : String) (t : Nat)
    (hlo : trLower theme ≠ theme) :
    find_theme_root (renderedFS scene t theme) theme = none := by
  rw [find_theme_root, List.find?_eq_none]
  intro c hc
  intro hb
  have hmem : c ∈ (renderedFS scene t theme).dirs := List.elem_iff.mp hb
  simp only [themeCandidates, List.mem_cons, List.not_mem_nil, or_false] at hc
  rcases hc with rfl | rfl | rfl | rfl
  · refine not_mem_rendered_dirs scene theme t
      (MEDIA_ROOT ++ [theme, "videos", "sde_animation"]) (Or.inl rfl) ?_ ?_ hmem
    · intro _ h
      apply hlo
      have := List.tail_eq_of_cons_eq (List.tail_eq_of_cons_eq h)
      exact List.head_eq_of_cons_eq this
    · intro h6'
      simp [MEDIA_ROOT] at h6'
  · refine not_mem_rendered_dirs scene theme t
      (MEDIA_ROOT ++ [theme, "videos", "scenes"]) (Or.inl rfl) ?_ ?_ hmem
    · intro _ h
      simp [MEDIA_ROOT] at h
    · intro h6'
      simp [MEDIA_ROOT] at h6'
  · refine not_mem_rendered_dirs scene theme t
      (MEDIA_ROOT ++ ["videos", theme, "videos", "sde_animation"]) (Or.inr rfl) ?_ ?_ hmem
    · intro h5'
      simp [MEDIA_ROOT] at h5'
    · intro _ h
      simp [MEDIA_ROOT] at h
  · refine not_mem_rendered_dirs scene theme t
      (MEDIA_ROOT ++ ["videos", theme, "videos", "scenes"]) (Or.inr rfl) ?_ ?_ hmem
    · intro h5'
      simp [MEDIA_ROOT] at h5'
    · intro _ h
      simp [MEDIA_ROOT] at h

/-- The content of claim C9 at a given instantiation: rendering a theme
with an uppercase letter produces output under the lowercased directory,
but the WebM, poster and staging steps — which use the argument verbatim —
fail to resolve the theme root and skip it, leaving state untouched apart
from a skip diagnostic. -/
def LowercaseMismatch (theme scene : String) (t t2 : Nat)
    (crf pix_fmt quality : String) (force : Bool) (mode : Mode) : Prop :=
  (BUILD_ROOT ++ [trLower theme]) ∈ (renderedFS scene t theme).dirs ∧
  (renderedFS scene t theme).files ≠ [] ∧
  find_theme_root (renderedFS scene t theme) theme = none ∧
  find_theme_video_root (renderedFS scene t theme) theme = none ∧
  process_theme crf pix_fmt force
      { fs := renderedFS scene t theme, time := t2, calls := [], log := [] } theme =
    { fs := renderedFS scene t theme, time := t2, calls := [], log := [skipRootMsg theme] } ∧
  generate_for_theme quality force
      { fs := renderedFS scene t theme, time := t2, calls := [], log := [] } theme =
    { fs := renderedFS scene t theme, time := t2, calls := [], log := [skipRootMsg theme] } ∧
  process_videos mode
      { fs := renderedFS scene t theme, time := t2, transfers := [], log := [] } theme =
    { fs := renderedFS scene t theme, time := t2, transfers := [],
      log := ["Skip videos for " ++ theme ++ ": render directory not found."] }

/-- C9: the render step lowercases its theme argument before constructing
the output directory, while the transcode, poster and staging steps probe
candidate roots with the argument verbatim; hence a theme argument holding
an uppercase ASCII letter renders output nothing downstream resolves, and
each downstream step skips the theme. -/
theorem render_lowercases_but_downstream_does_not (theme scene : String) (t t2 : Nat)
    (crf pix_fmt quality : String) (force : Bool) (mode : Mode)
    (hup : theme.data.any (fun c => 'A' ≤ c && c ≤ 'Z') = true) :
    LowercaseMismatch theme scene t t2 crf pix_fmt quality force mode := by
  have hlo : trLower theme ≠ theme := trLower_ne_of_upper theme hup
  have hnone : find_theme_root (renderedFS scene t theme) theme = none :=
    rendered_candidates_not_found scene theme t hlo
  have hnone2 : find_theme_video_root (renderedFS scene t theme) theme = none := by
    rw [find_theme_video_root_eq]
    exact hnone
  refine ⟨?_, ?_, hnone, hnone2, ?_, ?_, ?_⟩
  · rw [renderedFS_dirs_mem, mem_pathPrefixes]
    exact Or.inl ⟨(BUILD_ROOT ++ [trLower theme]).length, Nat.le_refl _, List.take_length _⟩
  · simp [renderedFS, render_theme, manimRender, FS.setFile]
  · exact process_theme_unresolvable crf pix_fmt force _ theme hnone
  · exact generate_for_theme_unresolvable quality force _ theme hnone
  · exact process_videos_unresolvable mode _ theme hnone2

theorem render_lowercases_but_downstream_does_not_witness :
    LowercaseMismatch "Dark" "intro" 0 0 "32" "yuv420p" "2" false Mode.move :=
  render_lowercases_but_downstream_does_not "Dark" "intro" 0 0 "32" "yuv420p" "2" false
    Mode.move (by decide)

/-! ## Claim C10: copy mode leaves the build tree untouched -/

theorem foldl_preserve {α β : Type} (P : β → Prop) (f : β → α → β)
    (hf : ∀ (b : β) (a : α), P b → P (f b a)) :
    ∀ (l : List α) (b : β), P b → P (l.foldl f b) := by
  intro l
  induction l with
  | nil => intro b h; exact h
  | cons a rest ih => intro b h; exact ih _ (hf b a h)

theorem perform_transfer_copy_getFile (now : Nat) (fs : FS) (src dest p : Path)
    (h : p ≠ dest) :
    (perform_transfer Mode.copy now fs src dest).getFile p = fs.getFile p := by
  unfold perform_transfer
  cases hs : (fs.mkdirp dest.dropLast).getFile src with
  | none => rfl
  | some d => rw [getFile_setFile_ne _ _ _ _ h]; rfl

theorem perform_transfer_dirs_mono (mode : Mode) (now : Nat) (fs : FS)
    (src dest d : Path) (h : d ∈ fs.dirs) :
    d ∈ (perform_transfer mode now fs src dest).dirs := by
  have hmk : d ∈ (fs.mkdirp dest.dropLast).dirs := mem_mkdirp_iff fs _ d |>.mpr (Or.inl h)
  unfold perform_transfer
  cases mode with
  | copy =>
      cases hs : (fs.mkdirp dest.dropLast).getFile src with
      | none => exact hmk
      | some e => exact hmk
  | move =>
      rw [dirs_rename]
      exact hmk

theorem build_headed_of_isPrefixOf (p : Path)
    (h : SOURCE_VIDEO_ROOT.isPrefixOf p = true) :
    ∃ rest, p = "build" :: "manim" :: rest := by
  cases p with
  | nil => simp [SOURCE_VIDEO_ROOT, List.isPrefixOf] at h
  | cons a q =>
      cases q with
      | nil => simp [SOURCE_VIDEO_ROOT, List.isPrefixOf] at h
      | cons b rest =>
          simp only [SOURCE_VIDEO_ROOT, List.isPrefixOf, Bool.and_eq_true, beq_iff_eq] at h
          exact ⟨rest, by rw [← h.1, ← h.2.1]⟩

theorem build_ne_site (p : Path) (h : SOURCE_VIDEO_ROOT.isPrefixOf p = true)
    (rest : List String) : p ≠ "site" :: rest := by
  obtain ⟨r, rfl⟩ := build_headed_of_isPrefixOf p h
  intro heq
  have := List.head_eq_of_cons_eq heq
  simp at this

/-- The frame property preserved by every copy-mode staging action: all
files below the build tree read as in the initial filesystem, and no
directory of the initial filesystem has been removed. -/
def BuildIntact (fs0 : FS) (s : StageState) : Prop :=
  (∀ p : Path, SOURCE_VIDEO_ROOT.isPrefixOf p = true → s.fs.getFile p = fs0.getFile p) ∧
  (∀ d ∈ fs0.dirs, d ∈ s.fs.dirs)

theorem stageTransfer_buildIntact (fs0 : FS) (st : StageState) (src : Path)
    (rest : List String) (line : String) (h : BuildIntact fs0 st) :
    BuildIntact fs0 (stageTransfer Mode.copy st src ("site" :: rest) line) := by
  constructor
  · intro p hp
    show (perform_transfer Mode.copy st.time st.fs src ("site" :: rest)).getFile p = _
    rw [perform_transfer_copy_getFile _ _ _ _ _ (build_ne_site p hp rest)]
    exact h.1 p hp
  · intro d hd
    exact perform_transfer_dirs_mono Mode.copy st.time st.fs src _ d (h.2 d hd)

theorem process_videos_resolved (mode : Mode) (st : StageState) (theme : String)
    (theme_source : Path)
    (h : find_theme_video_root st.fs theme = some theme_source) :
    process_videos mode st theme =
      (if (findFiles st.fs theme_source [".mp4", ".webm"]).isEmpty then
        { ((findFiles st.fs theme_source [".mp4", ".webm"]).foldl (fun s src_path =>
            stageTransfer mode s src_path
              (DEST_VIDEO_ROOT ++ [theme, "sde_animation"] ++ src_path.drop theme_source.length)
              ("[" ++ theme ++ "] video: " ++ pathKey (src_path.drop theme_source.length))) st) with
          log := ((findFiles st.fs theme_source [".mp4", ".webm"]).foldl (fun s src_path =>
            stageTransfer mode s src_path
              (DEST_VIDEO_ROOT ++ [theme, "sde_animation"] ++ src_path.drop theme_source.length)
              ("[" ++ theme ++ "] video: " ++ pathKey (src_path.drop theme_source.length))) st).log ++
            ["Skip videos for " ++ theme ++ ": no MP4/WebM files."] }
      else (findFiles st.fs theme_source [".mp4", ".webm"]).foldl (fun s src_path =>
        stageTransfer mode s src_path
          (DEST_VIDEO_ROOT ++ [theme, "sde_animation"] ++ src_path.drop theme_source.length)
          ("[" ++ theme ++ "] video: " ++ pathKey (src_path.drop theme_source.length))) st) := by
  unfold process_videos
  rw [h]

theorem process_videos_copy_buildIntact (fs0 : FS) (theme : String) (st : StageState)
    (h : BuildIntact fs0 st) :
    BuildIntact fs0 (process_videos Mode.copy st theme) := by
  cases hr : find_theme_video_root st.fs theme with
  | none =>
      rw [process_videos_unresolvable Mode.copy st theme hr]
      exact h
  | some theme_source =>
      rw [process_videos_resolved Mode.copy st theme theme_source hr]
      have hstep : ∀ (b : StageState) (a : Path), BuildIntact fs0 b →
          BuildIntact fs0 (stageTransfer Mode.copy b a
            (DEST_VIDEO_ROOT ++ [theme, "sde_animation"] ++ a.drop theme_source.length)
            ("[" ++ theme ++ "] video: " ++ pathKey (a.drop theme_source.length))) :=
        fun b a hb => stageTransfer_buildIntact fs0 b a
          ("assets" :: "videos" :: theme :: "sde_animation" :: a.drop theme_source.length)
          ("[" ++ theme ++ "] video: " ++ pathKey (a.drop theme_source.length)) hb
      have hfold := foldl_preserve (BuildIntact fs0) _ hstep
        (findFiles st.fs theme_source [".mp4", ".webm"]) st h
      by_cases he : (findFiles st.fs theme_source [".mp4", ".webm"]).isEmpty
      · rw [if_pos he]
        exact hfold
      · rw [if_neg he]
        exact hfold

theorem process_posters_copy_buildIntact (fs0 : FS) (theme : String) (st : StageState)
    (h : BuildIntact fs0 st) :
    BuildIntact fs0 (process_posters Mode.copy st theme) := by
  unfold process_posters
  by_cases hd : st.fs.dirExists SOURCE_POSTER_ROOT = true
  · rw [if_neg (by simp [hd])]
    by_cases hg : (posterGlob st.fs theme).isEmpty
    · rw [if_pos hg]
      exact h
    · rw [if_neg hg]
      have hstep : ∀ (b : StageState) (a : Path), BuildIntact fs0 b →
          BuildIntact fs0 (stageTransfer Mode.copy b a (DEST_POSTER_ROOT ++ [lastName a])
            ("[" ++ theme ++ "] poster: " ++ lastName a)) :=
        fun b a hb => stageTransfer_buildIntact fs0 b a
          ("assets" :: "posters" :: [lastName a])
          ("[" ++ theme ++ "] poster: " ++ lastName a) hb
      exact foldl_preserve (BuildIntact fs0) _ hstep (posterGlob st.fs theme) st h
  · rw [if_pos (by simp [Bool.eq_false_iff.mpr hd])]
    exact h

theorem sync_figures_buildIntact (fs0 : FS) (st : StageState) (h : BuildIntact fs0 st) :
    BuildIntact fs0 (sync_figures st) := by
  unfold sync_figures
  by_cases hd : st.fs.dirExists SOURCE_FIGURE_ROOT = true
  · rw [if_neg (by simp [hd])]
    constructor
    · intro p hp
      show ((st.fs.files.filter (fun e => SOURCE_FIGURE_ROOT.isPrefixOf e.1)).foldl
        (fun (f : FS) (e : Path × FileData) =>
          f.setFile (DEST_FIGURE_ROOT ++ e.1.drop SOURCE_FIGURE_ROOT.length) e.2)
        _).getFile p = _
      have hstep : ∀ (f : FS) (e : Path × FileData),
          f.getFile p = fs0.getFile p →
          (f.setFile (DEST_FIGURE_ROOT ++ e.1.drop SOURCE_FIGURE_ROOT.length) e.2).getFile p =
            fs0.getFile p := by
        intro f e hf
        have hne : p ≠ DEST_FIGURE_ROOT ++ e.1.drop SOURCE_FIGURE_ROOT.length :=
          build_ne_site p hp ("assets" :: "images" :: e.1.drop SOURCE_FIGURE_ROOT.length)
        exact (getFile_setFile_ne f (DEST_FIGURE_ROOT ++ e.1.drop SOURCE_FIGURE_ROOT.length)
          p e.2 hne).trans hf
      exact foldl_preserve (fun (f : FS) => f.getFile p = fs0.getFile p) _ hstep _ _ (h.1 p hp)
    · intro d hd'
      show d ∈ ((st.fs.files.filter (fun e => SOURCE_FIGURE_ROOT.isPrefixOf e.1)).foldl
        (fun (f : FS) (e : Path × FileData) =>
          f.setFile (DEST_FIGURE_ROOT ++ e.1.drop SOURCE_FIGURE_ROOT.length) e.2)
        _).dirs
      have hstep : ∀ (f : FS) (e : Path × FileData), d ∈ f.dirs →
          d ∈ (f.setFile (DEST_FIGURE_ROOT ++ e.1.drop SOURCE_FIGURE_ROOT.length) e.2).dirs := by
        intro f e hf
        exact hf
      refine foldl_preserve (fun (f : FS) => d ∈ f.dirs) _ hstep _ _ ?_
      exact List.mem_append_left _ (mem_mkdirp_iff st.fs DEST_FIGURE_ROOT d |>.mpr
        (Or.inl (h.2 d hd')))
  · rw [if_pos (by simp [Bool.eq_false_iff.mpr hd])]
    exact h

/-- C10: in copy mode the stager leaves the build tree entirely alone —
every file below `build/manim` (videos and posters alike) still reads
exactly as before — and no directory is pruned (the empty-directory pass
runs only in move mode, and nothing else removes directories either). -/
theorem stage_copy_leaves_build_untouched (argThemes : List String) (fs : FS) (t : Nat) :
    (∀ p : Path, SOURCE_VIDEO_ROOT.isPrefixOf p = true →
      (stage_main Mode.copy argThemes fs t).1.fs.getFile p = fs.getFile p) ∧
    (∀ d ∈ fs.dirs, d ∈ (stage_main Mode.copy argThemes fs t).1.fs.dirs) := by
  have hmain : (stage_main Mode.copy argThemes fs t).1 =
      sync_figures ((if argThemes.isEmpty then ["dark", "light"] else argThemes).foldl
        (fun s theme => process_posters Mode.copy (process_videos Mode.copy s theme) theme)
        { fs := ((fs.mkdirp DEST_VIDEO_ROOT).mkdirp DEST_POSTER_ROOT).mkdirp DEST_FIGURE_ROOT,
          time := t, transfers := [], log := [] }) := rfl
  have h0 : BuildIntact fs
      { fs := ((fs.mkdirp DEST_VIDEO_ROOT).mkdirp DEST_POSTER_ROOT).mkdirp DEST_FIGURE_ROOT,
        time := t, transfers := [], log := [] } := by
    constructor
    · intro p _
      rfl
    · intro d hd
      exact mem_mkdirp_iff _ _ d |>.mpr (Or.inl
        (mem_mkdirp_iff _ _ d |>.mpr (Or.inl
          (mem_mkdirp_iff _ _ d |>.mpr (Or.inl hd)))))
  have hloop := foldl_preserve (BuildIntact fs)
    (fun s theme => process_posters Mode.copy (process_videos Mode.copy s theme) theme)
    (fun b a hb => process_posters_copy_buildIntact fs a _
      (process_videos_copy_buildIntact fs a b hb))
    (if argThemes.isEmpty then ["dark", "light"] else argThemes) _ h0
  have hfinal := sync_figures_buildIntact fs _ hloop
  rw [hmain]
  exact ⟨hfinal.1, hfinal.2⟩

def fsW10 : FS :=
  { files := [ (["build", "manim", "posters", "x-dark.jpg"], ⟨"j", 0⟩),
      (["build", "manim", "dark", "videos", "sde_animation", "intro.webm"], ⟨"w", 0⟩) ],
    dirs := [["build", "manim", "posters"],
      ["build", "manim", "dark", "videos", "sde_animation"]] }

theorem stage_copy_leaves_build_untouched_witness :
    (stage_main Mode.copy [] fsW10 5).1.fs.getFile
        ["build", "manim", "dark", "videos", "sde_animation", "intro.webm"] =
      fsW10.getFile ["build", "manim", "dark", "videos", "sde_animation", "intro.webm"] ∧
    ["build", "manim", "posters"] ∈ (stage_main Mode.copy [] fsW10 5).1.fs.dirs :=
  ⟨(stage_copy_leaves_build_untouched [] fsW10 5).1
      ["build", "manim", "dark", "videos", "sde_animation", "intro.webm"] (by decide),
   (stage_copy_leaves_build_untouched [] fsW10 5).2
      ["build", "manim", "posters"] (by decide)⟩

end NSF
